import Mathlib

/-!
Verification development for the claude-code-yolo repository.

The repository ships two Express servers wrapping an AI coding backend:
an SDK-based server (function executeClaudeCodeWithSDK, a structured
getGitDiff) and a CLI-spawn server (function executeClaudeCode, an
extractSummaryFromOutput heuristic, a string-returning git diff helper).
This file gives a shallow embedding of both cores and settles the frozen
claims about them.

Modelling conventions:
- JavaScript strings that the code manipulates character by character
  (trim, split, startsWith, toLower) are embedded as List Char, with the
  JS operations translated structurally so that everything evaluates
  inside the kernel.  Strings that are only compared or stored verbatim
  stay as Lean String.
- JSON.parse is an external library call; the scanning code is
  parameterised by a parse function of type List Char to Option JsonVal.
  The only fields the servers ever read from a parsed payload are
  message and result, so JsonVal carries exactly those.
- Promise resolution and rejection are embedded as Except: Except.ok is
  a resolved value, Except.error a rejection that propagates to the
  HTTP layer.
- The event-driven process handling is embedded as a function of the
  process fate: the child closes at some time with an exit code and a
  list of stdout data chunks, or it hangs past the timeout ceiling, or
  the spawn itself fails.  The CLI server registers no error listener
  on the claude child, so a spawn failure is an unhandled error event
  that crashes the server process and the promise never settles; this
  is embedded as a third settlement state, crashed.  Node sets
  ChildProcess.killed to true as soon as kill() successfully sends a
  signal, not when the child exits; the embedding reflects that
  documented semantics in the timeout branch.
-/

/-- Apostrophe character, kept out of string literals. -/
def apoCh : Char := Char.ofNat 39

/-- Opening brace character, kept out of string literals. -/
def lbraceCh : Char := Char.ofNat 123

/-- Newline character used by the line splitting code. -/
def nlCh : Char := Char.ofNat 10

/-- Whitespace test backing the JS String.prototype.trim model. -/
def isWS (c : Char) : Bool := c.isWhitespace

/-- Model of JS String.prototype.trim on a character list: drop leading
and trailing whitespace. -/
def jsTrim (s : List Char) : List Char :=
  ((s.dropWhile isWS).reverse.dropWhile isWS).reverse

/-- Model of JS String.prototype.split with separator newline. -/
def splitLinesCh : List Char → List (List Char)
  | [] => [[]]
  | c :: cs =>
    if c == nlCh then [] :: splitLinesCh cs
    else
      match splitLinesCh cs with
      | [] => [[c]]
      | l :: ls => (c :: l) :: ls

/-- Model of the idiom s.split of newline followed by filter on truthy
trim, used both by the chunk scanner and by extractSummaryFromOutput. -/
def jsLines (s : List Char) : List (List Char) :=
  (splitLinesCh s).filter (fun l => !(jsTrim l).isEmpty)

/-- ChangeSet produced by the SDK server getGitDiff.  The source has no
diffUnavailable field; the only unavailability marker it can produce is
the error field attached on a spawn error. -/
structure ChangeSet where
  hasChanges : Bool
  changedFiles : List (List Char)
  error : Option String
  deriving DecidableEq, Repr

/-- Fate of the spawned git process: the spawn itself errors (tool not
available), or the process closes with an exit code and captured
stdout. -/
inductive GitEvent where
  | spawnError
  | closed (code : Int) (stdout : List Char)
  deriving DecidableEq, Repr

/-- SDK server getGitDiff: spawns git diff --name-only and resolves a
ChangeSet from the close code and accumulated stdout; the promise is
resolve-only.  Translated from the SDK server source. -/
def getGitDiff : GitEvent → ChangeSet
  | .spawnError =>
    { hasChanges := false, changedFiles := [], error := some "Git not available" }
  | .closed code out =>
    if code == 0 && !(jsTrim out).isEmpty then
      { hasChanges := true
      , changedFiles := (splitLinesCh (jsTrim out)).filter (fun f => !(jsTrim f).isEmpty)
      , error := none }
    else
      { hasChanges := false, changedFiles := [], error := none }

/-- Fate of the exec call made by the CLI server git diff helper. -/
inductive GitCliExec where
  | execError
  | ok (stdout : String)
  deriving DecidableEq, Repr

/-- CLI server git diff helper: execs git diff --stat plus git status
--short and resolves a plain string, never a structured ChangeSet.
Translated from the CLI server source. -/
def getGitDiffCli : GitCliExec → String
  | .execError => "Unable to get diff"
  | .ok out => if out = "" then "No changes detected" else out

/-- Summary regex prefixes of extractSummaryFromOutput.  Each source
regex has the shape caret, prefix word, space, dot-plus, with the
ignore-case flag, so each entry here carries its trailing space. -/
def summaryPatterns : List (List Char) :=
  [ "I".data ++ [apoCh] ++ "ve ".data
  , "I have ".data
  , "Successfully ".data
  , "Completed ".data
  , "Created ".data
  , "Updated ".data
  , "Fixed ".data
  , "Added ".data ]

/-- Lowercasing for the ignore-case regex flag. -/
def toLowerL (s : List Char) : List Char := s.map Char.toLower

/-- Prefix test on character lists. -/
def listStarts : List Char → List Char → Bool
  | [], _ => true
  | _ :: _, [] => false
  | p :: ps, c :: cs => p == c && listStarts ps cs

/-- Model of one source regex test: the line starts with the pattern
prefix, case-insensitively, and has at least one further character. -/
def patternTest (p line : List Char) : Bool :=
  listStarts (toLowerL p) (toLowerL line) && p.length < line.length

/-- Inner loop of extractSummaryFromOutput over the patterns: some
summary pattern test fires on the line. -/
def isSummaryLine (l : List Char) : Bool :=
  summaryPatterns.any (fun p => patternTest p l)

/-- Outer loop of extractSummaryFromOutput: walk the lines and return
the first one on which some pattern test fires. -/
def findSummaryLine : List (List Char) → Option (List Char)
  | [] => none
  | l :: ls =>
    if isSummaryLine l then some l
    else findSummaryLine ls

/-- CLI server extractSummaryFromOutput: split the accumulated output on
newlines, drop blank lines, return the first line matching a summary
pattern, else the first remaining line, else the fixed default.
Translated from the CLI server source. -/
def extractSummaryFromOutput (output : List Char) : List Char :=
  let lines := jsLines output
  match findSummaryLine lines with
  | some l => l
  | none =>
    match lines with
    | [] => "Task completed".data
    | l :: _ => l

/-- Shape of a parsed JSON payload as the servers consume it: the CLI
close handler reads only the message field and the counterexamples need
the result field the claim talks about. -/
structure JsonVal where
  message : Option (List Char)
  result : Option (List Char)
  deriving DecidableEq, Repr

/-- One stdout data event split into candidate lines, as in the CLI
stdout handler. -/
def chunkLinesCh (c : List Char) : List (List Char) := jsLines c

/-- Payload a single candidate line contributes: lines starting with an
opening brace are offered to JSON.parse, all others contribute
nothing. -/
def payloadOf (parse : List Char → Option JsonVal) (l : List Char) : Option JsonVal :=
  if listStarts [lbraceCh] l then parse l else none

/-- CLI stdout handler body for one candidate line: lines starting with
an opening brace are offered to JSON.parse; success overwrites the
running jsonOutput, failure keeps it. -/
def scanLine (parse : List Char → Option JsonVal)
    (st : Option JsonVal) (l : List Char) : Option JsonVal :=
  if listStarts [lbraceCh] l then
    match parse l with
    | some j => some j
    | none => st
  else st

/-- CLI stdout handler for one data chunk. -/
def scanChunk (parse : List Char → Option JsonVal)
    (st : Option JsonVal) (c : List Char) : Option JsonVal :=
  (chunkLinesCh c).foldl (scanLine parse) st

/-- Running jsonOutput after all stdout data events have been
processed. -/
def scanChunks (parse : List Char → Option JsonVal)
    (chunks : List (List Char)) : Option JsonVal :=
  chunks.foldl (scanChunk parse) none

/-- All payloads that parse successfully across the whole stream, in
arrival order. -/
def parsedPayloads (parse : List Char → Option JsonVal)
    (chunks : List (List Char)) : List JsonVal :=
  ((chunks.map chunkLinesCh).flatten).filterMap (payloadOf parse)

/-- Summary computation of the CLI close handler on exit code zero: use
the message field of the final jsonOutput when it is truthy, otherwise
fall back to heuristic extraction over the accumulated output. -/
def jsonSummaryOf (jo : Option JsonVal) (output : List Char) : List Char :=
  match jo with
  | some j =>
    match j.message with
    | some m => if m.isEmpty then extractSummaryFromOutput output else m
    | none => extractSummaryFromOutput output
  | none => extractSummaryFromOutput output

/-- Timeout ceiling of the CLI server, in milliseconds. -/
def MAX_EXECUTION_TIME : Nat := 900000

/-- Fate of the spawned claude process: it closes at some instant with
an exit code, stdout chunks and stderr text, or it never exits, or the
spawn itself fails (command not found or not executable), which emits
an error event on the child. -/
inductive ProcFate where
  | closes (atMs : Nat) (code : Int) (chunks : List (List Char)) (errOutput : String)
  | hangs
  | spawnFails

/-- Rejection value of the CLI runner promise. -/
structure CliReject where
  error : String
  code : Option Int := none
  output : Option (List Char) := none
  errorOutput : Option String := none
  deriving DecidableEq, Repr

/-- Resolution value of the CLI runner promise.  The taskId and timing
fields carry no claim content and are omitted. -/
structure CliResolve where
  success : Bool
  summary : List Char
  changes : String
  output : List Char
  deriving DecidableEq, Repr

/-- Settlement state of the CLI runner promise: resolved, rejected, or
crashed, the last meaning the spawned child emitted an error event that
no listener handles, so the whole server process dies with the promise
never settling. -/
inductive CliSettle where
  | resolved (v : CliResolve)
  | rejected (e : CliReject)
  | crashed

/-- Observable behaviour of one CLI runner invocation: how the promise
settles, which signals were sent, and whether the git diff helper ran
before the promise settled. -/
structure CliRun where
  settled : CliSettle
  sigterm : Bool
  sigkill : Bool
  diffBeforeResult : Bool

/-- CLI server executeClaudeCode.  The close handler clears the first
timeout timer, rejects on a non-zero exit code without consulting git,
and on exit code zero fetches the git diff and resolves with the
computed summary.  Both timeout timers fire at the ceiling: SIGTERM is
sent and the promise rejects with the fixed message.  The escalation
callback tests ChildProcess.killed, which Node documents as true once
kill() has successfully sent any signal, so after the SIGTERM send the
test is false and SIGKILL is never issued.  No error listener is
attached to the child, so a spawn failure emits an unhandled error
event on the next tick, before either timer fires: the server process
crashes and the promise never settles.  Translated from the CLI server
source. -/
def executeClaudeCode (parse : List Char → Option JsonVal)
    (fate : ProcFate) (git : GitCliExec) : CliRun :=
  match fate with
  | .spawnFails =>
    { settled := .crashed
    , sigterm := false
    , sigkill := false
    , diffBeforeResult := false }
  | .hangs =>
    { settled := .rejected { error := "Execution timeout exceeded" }
    , sigterm := true
    , sigkill := false
    , diffBeforeResult := false }
  | .closes t code chunks errOutput =>
    if t < MAX_EXECUTION_TIME then
      if code != 0 then
        { settled := .rejected
            { error := "Claude Code execution failed"
            , code := some code
            , output := some chunks.flatten
            , errorOutput := some errOutput }
        , sigterm := false
        , sigkill := false
        , diffBeforeResult := false }
      else
        let output := chunks.flatten
        let summary := jsonSummaryOf (scanChunks parse chunks) output
        { settled := .resolved
            { success := true
            , summary := summary
            , changes := getGitDiffCli git
            , output := output.take 5000 }
        , sigterm := false
        , sigkill := false
        , diffBeforeResult := true }
    else
      { settled := .rejected { error := "Execution timeout exceeded" }
      , sigterm := true
      , sigkill := false
      , diffBeforeResult := false }

/-- Summary of a resolved CLI run, none otherwise. -/
def cliSummary? (r : CliRun) : Option (List Char) :=
  match r.settled with
  | .resolved v => some v.summary
  | _ => none

/-- Error text of a rejected CLI run, none otherwise. -/
def cliRejectError? (r : CliRun) : Option String :=
  match r.settled with
  | .rejected e => some e.error
  | _ => none

/-- Whether the CLI run resolved. -/
def settledOk (r : CliRun) : Bool :=
  match r.settled with
  | .resolved _ => true
  | _ => false

/-- Whether the CLI run crashed the server process with an unhandled
error event, the promise never settling. -/
def cliCrashed (r : CliRun) : Bool :=
  match r.settled with
  | .crashed => true
  | _ => false

/-- Whether the process fate reaches the timeout ceiling.  A spawn
failure crashes on the next tick, before the timers can fire. -/
def timedOut : ProcFate → Bool
  | .hangs => true
  | .closes t _ _ _ => decide (MAX_EXECUTION_TIME ≤ t)
  | .spawnFails => false

/-- One message of the SDK stream; only the fields the loop reads are
carried.  Cost is an abstract numeral since no claim involves its
arithmetic. -/
structure SdkMsg where
  type : String
  subtype : Option String := none
  is_error : Bool := false
  result : Option String := none
  error : Option String := none
  total_cost_usd : Option Nat := none
  num_turns : Option Nat := none
  deriving DecidableEq, Repr

/-- Outcome of the for-await loop over the SDK stream: a thrown Error
with its message, or normal completion with the captured result data
when a result-kind message arrived. -/
inductive LoopOutcome where
  | threw (msg : String)
  | finished (result : Option (String × Nat × Nat))
  deriving DecidableEq, Repr

/-- SDK message loop: a result-kind message terminates with a result
text (special-casing the error-during-execution subtype without the
hard error flag, then the truthy result field, then a generic default)
plus cost and turn count defaults; an error-kind message throws; any
other message is skipped.  Translated from the SDK server source. -/
def sdkLoop : List SdkMsg → LoopOutcome
  | [] => .finished none
  | m :: ms =>
    if m.type = "result" then
      let r :=
        if m.subtype = some "error_during_execution" && !m.is_error then
          "Task completed successfully (with minor execution details)"
        else
          match m.result with
          | some s => if s = "" then "Task completed successfully" else s
          | none => "Task completed successfully"
      .finished (some (r, m.total_cost_usd.getD 0, m.num_turns.getD 1))
    else if m.type = "error" then
      .threw ("Claude Code SDK error: " ++ m.error.getD "undefined")
    else sdkLoop ms

/-- Rejection value thrown from the catch block of the SDK runner. -/
structure SdkReject where
  success : Bool
  error : String
  details : String
  deriving DecidableEq, Repr

/-- Resolution value of the SDK runner. -/
structure SdkResolve where
  success : Bool
  result : String
  summary : String
  cost : Nat
  changes : ChangeSet
  deriving DecidableEq, Repr

/-- Observable behaviour of one SDK runner invocation. -/
structure SdkRun where
  settled : Except SdkReject SdkResolve
  diffInvoked : Bool

/-- SDK server executeClaudeCodeWithSDK.  Runs the message loop inside a
try block; a thrown loop error or an absent result reaches the catch
block, which rethrows a structured failure object, so the async
function rejects.  On a captured result it fetches the git diff and
resolves with the success envelope.  Translated from the SDK server
source. -/
def executeClaudeCodeWithSDK (msgs : List SdkMsg) (git : ChangeSet) : SdkRun :=
  match sdkLoop msgs with
  | .threw em =>
    { settled := .error
        { success := false
        , error := "Claude Code SDK execution failed"
        , details := em }
    , diffInvoked := false }
  | .finished none =>
    { settled := .error
        { success := false
        , error := "Claude Code SDK execution failed"
        , details := "No result received from Claude Code SDK" }
    , diffInvoked := false }
  | .finished (some (r, c, t)) =>
    { settled := .ok
        { success := true
        , result := r
        , summary := "Task completed successfully in " ++ toString t ++ " turn(s)"
        , cost := c
        , changes := git }
    , diffInvoked := true }

/-- Result projection of a resolved SDK run: success flag and result
text, none when the promise rejected. -/
def sdkResult? (r : SdkRun) : Option (Bool × String) :=
  match r.settled with
  | .ok v => some (v.success, v.result)
  | .error _ => none

/-- Whether the SDK run resolved. -/
def sdkSettledOk (r : SdkRun) : Bool :=
  match r.settled with
  | .ok _ => true
  | .error _ => false

/-- Request body of the task execution endpoint as destructured by the
handler. -/
structure ReqBody where
  task : Option String
  codebase_path : Option String
  context : Option String := none
  deriving DecidableEq, Repr

/-- JS truthiness of an optional string field: absent and empty are
falsy. -/
def jsTruthyStr : Option String → Bool
  | none => false
  | some s => s ≠ ""

/-- Authentication middleware: the request passes exactly when the
authorization header is present and equals the string Bearer, a space,
and the configured key.  Translated from the server source; both
servers carry the identical middleware. -/
def authenticate (authHeader : Option String) (apiKey : String) : Bool :=
  match authHeader with
  | none => false
  | some h => h == "Bearer " ++ apiKey

/-- Externally visible outcome of one request to the task execution
endpoint: HTTP status, the error body when one is sent, and whether the
runner was ever invoked. -/
structure RouteOutcome where
  status : Nat
  errorBody : Option String
  executionStarted : Bool
  deriving DecidableEq, Repr

/-- Task execution route of the SDK server with its authenticate
middleware: a failed bearer check answers 401 before the handler runs;
a falsy task or codebase_path answers 400 before any execution; only
then is the runner awaited, a resolution answered as 200 and a
rejection as 500.  The CLI server route has the identical guard
structure.  Translated from the server source. -/
def postClaudeCode (authHeader : Option String) (apiKey : String)
    (body : ReqBody) (exec : SdkRun) : RouteOutcome :=
  if authenticate authHeader apiKey then
    if !jsTruthyStr body.task || !jsTruthyStr body.codebase_path then
      { status := 400
      , errorBody := some "Missing required parameters: task and codebase_path"
      , executionStarted := false }
    else
      match exec.settled with
      | .ok _ => { status := 200, errorBody := none, executionStarted := true }
      | .error _ =>
        { status := 500
        , errorBody := some "Failed to execute Claude Code SDK"
        , executionStarted := true }
  else
    { status := 401, errorBody := some "Unauthorized", executionStarted := false }

/-- Concrete parse stub for the C5 witness: two recognised payload
lines. -/
def c5parse : List Char → Option JsonVal := fun l =>
  if l = "\x7bA".data then some { message := some "first".data, result := none }
  else if l = "\x7bB".data then some { message := some "second".data, result := none }
  else none

/-- Concrete stdout stream for the C5 witness: one chunk carrying two
payload lines. -/
def c5chunks : List (List Char) := ["\x7bA".data ++ [nlCh] ++ "\x7bB".data]

/-- Concrete parse stub for the C6 witness: one payload line carrying a
message field. -/
def c6parse : List Char → Option JsonVal := fun l =>
  if l = "\x7bC".data then some { message := some "px".data, result := none }
  else none

/-- Concrete parse stub for the C6 counterexample: one payload line
carrying a result field but no message field. -/
def c6cexParse : List Char → Option JsonVal := fun l =>
  if l = "\x7bR".data then some { message := none, result := some "A".data }
  else none

/-! Helper lemmas about the JS string model, shared by the claims. -/

theorem jsTrim_eq_nil_iff (s : List Char) :
    jsTrim s = [] ↔ ∀ c ∈ s, isWS c = true := by
  unfold jsTrim
  rw [List.reverse_eq_nil_iff, List.dropWhile_eq_nil_iff]
  constructor
  · intro h c hc
    rw [← List.takeWhile_append_dropWhile isWS s] at hc
    rcases List.mem_append.mp hc with h1 | h2
    · exact List.mem_takeWhile_imp h1
    · exact h c (List.mem_reverse.mpr h2)
  · intro h c hc
    have hc2 : c ∈ s.dropWhile isWS := List.mem_reverse.mp hc
    have : c ∈ s := by
      rw [← List.takeWhile_append_dropWhile isWS s]
      exact List.mem_append.mpr (Or.inr hc2)
    exact h c this

theorem jsTrim_decomp (s : List Char) :
    ∃ pre post, s = pre ++ jsTrim s ++ post ∧
      (∀ c ∈ pre, isWS c = true) ∧ (∀ c ∈ post, isWS c = true) := by
  refine ⟨s.takeWhile isWS, ((s.dropWhile isWS).reverse.takeWhile isWS).reverse,
    ?_, ?_, ?_⟩
  · rw [List.append_assoc]
    conv_lhs => rw [← List.takeWhile_append_dropWhile isWS s]
    congr 1
    calc s.dropWhile isWS
        = ((s.dropWhile isWS).reverse).reverse := (List.reverse_reverse _).symm
      _ = (List.takeWhile isWS (s.dropWhile isWS).reverse
            ++ List.dropWhile isWS (s.dropWhile isWS).reverse).reverse := by
            rw [List.takeWhile_append_dropWhile]
      _ = (List.dropWhile isWS (s.dropWhile isWS).reverse).reverse
            ++ (List.takeWhile isWS (s.dropWhile isWS).reverse).reverse := by
            rw [List.reverse_append]
      _ = jsTrim s ++ (List.takeWhile isWS (s.dropWhile isWS).reverse).reverse := rfl
  · intro c hc
    exact List.mem_takeWhile_imp hc
  · intro c hc
    exact List.mem_takeWhile_imp (List.mem_reverse.mp hc)

theorem jsTrim_all_ws_eq_nil (s : List Char)
    (h : ∀ c ∈ jsTrim s, isWS c = true) : jsTrim s = [] := by
  obtain ⟨pre, post, hs, hpre, hpost⟩ := jsTrim_decomp s
  apply (jsTrim_eq_nil_iff s).mpr
  intro c hc
  rw [hs] at hc
  rcases List.mem_append.mp hc with h12 | h4
  · rcases List.mem_append.mp h12 with h1 | h3
    · exact hpre c h1
    · exact h c h3
  · exact hpost c h4

theorem splitLinesCh_ne_nil (s : List Char) : splitLinesCh s ≠ [] := by
  induction s with
  | nil => simp [splitLinesCh]
  | cons c cs ih =>
    simp only [splitLinesCh]
    split
    · simp
    · split
      · simp
      · simp

theorem exists_line_of_mem :
    ∀ (s : List Char) (c : Char), c ∈ s →
      c = nlCh ∨ ∃ line ∈ splitLinesCh s, c ∈ line := by
  intro s
  induction s with
  | nil => intro c h; exact absurd h (List.not_mem_nil c)
  | cons a as ih =>
    intro c h
    rcases List.mem_cons.mp h with rfl | hmem
    · by_cases ha : (c == nlCh) = true
      · exact Or.inl (by simpa using ha)
      · right
        cases hr : splitLinesCh as with
        | nil => exact absurd hr (splitLinesCh_ne_nil as)
        | cons l ls =>
          refine ⟨c :: l, ?_, List.mem_cons_self c l⟩
          simp [splitLinesCh, ha, hr]
    · rcases ih c hmem with hnl | ⟨line, hline, hcl⟩
      · exact Or.inl hnl
      · right
        by_cases ha : (a == nlCh) = true
        · refine ⟨line, ?_, hcl⟩
          simp only [splitLinesCh, ha, if_pos]
          exact List.mem_cons_of_mem _ hline
        · cases hr : splitLinesCh as with
          | nil => exact absurd hr (splitLinesCh_ne_nil as)
          | cons l ls =>
            rcases List.mem_cons.mp (hr ▸ hline) with rfl | htl
            · refine ⟨a :: line, ?_, List.mem_cons_of_mem a hcl⟩
              simp [splitLinesCh, ha, hr]
            · refine ⟨line, ?_, hcl⟩
              simp only [splitLinesCh, ha, hr]
              exact List.mem_cons_of_mem _ htl

/-- Claim C10 (confirmed): every ChangeSet produced by the SDK server
getGitDiff couples its fields, hasChanges holds exactly when
changedFiles is non-empty, and every entry of changedFiles is a
non-empty string since blank lines of the tool output are filtered
out. -/
theorem claim_C10 (ev : GitEvent) :
    ((getGitDiff ev).hasChanges = true ↔ (getGitDiff ev).changedFiles ≠ []) ∧
    ∀ f ∈ (getGitDiff ev).changedFiles, f ≠ [] := by
  cases ev with
  | spawnError => simp [getGitDiff]
  | closed code out =>
    simp only [getGitDiff]
    split
    case isTrue h =>
      have hne : jsTrim out ≠ [] := by
        intro he
        rw [he] at h
        simp at h
      refine ⟨⟨fun _ => ?_, fun _ => rfl⟩, fun f hf => ?_⟩
      · intro hfe
        have hall := List.filter_eq_nil_iff.mp hfe
        have hws : ∀ c ∈ jsTrim out, isWS c = true := by
          intro c hc
          rcases exists_line_of_mem (jsTrim out) c hc with rfl | ⟨line, hline, hcl⟩
          · decide
          · have h2 := hall line hline
            have hl : jsTrim line = [] := by
              simpa [List.isEmpty_iff] using h2
            exact (jsTrim_eq_nil_iff line).mp hl c hcl
        exact hne (jsTrim_all_ws_eq_nil out hws)
      · have hkeep := List.of_mem_filter hf
        intro hfe
        rw [hfe] at hkeep
        exact absurd hkeep (by decide)
    case isFalse h => simp

/-- Witness for claim C10 at a concrete git close event. -/
theorem claim_C10_witness :
    (getGitDiff (.closed 0 ['a'])).changedFiles ≠ [] ∧ (['a'] : List Char) ≠ [] := by
  have h := claim_C10 (.closed 0 ['a'])
  exact ⟨h.1.mp (by decide), h.2 ['a'] (by decide)⟩

/-! Helper lemmas connecting the stateful chunk scanner to the list of
successfully parsed payloads. -/

/-- Last element of a payload list, falling back to a prior state, as
the overwrite semantics of the jsonOutput variable. -/
def lastOr (st : Option JsonVal) (l : List JsonVal) : Option JsonVal :=
  match l.getLast? with
  | some j => some j
  | none => st

theorem lastOr_cons (st : Option JsonVal) (j : JsonVal) (xs : List JsonVal) :
    lastOr st (j :: xs) = lastOr (some j) xs := by
  cases xs with
  | nil => rfl
  | cons y ys =>
    simp only [lastOr, List.getLast?_cons_cons]
    cases h : (y :: ys).getLast? with
    | some z => rfl
    | none => exact absurd (List.getLast?_eq_none_iff.mp h) (List.cons_ne_nil y ys)

theorem lastOr_append (st : Option JsonVal) (a b : List JsonVal) :
    lastOr st (a ++ b) = lastOr (lastOr st a) b := by
  induction a generalizing st with
  | nil => rfl
  | cons x xs ih => rw [List.cons_append, lastOr_cons, lastOr_cons, ih]

theorem lastOr_none (l : List JsonVal) : lastOr none l = l.getLast? := by
  cases hl : l.getLast? <;> simp [lastOr, hl]

theorem scanLine_eq (parse : List Char → Option JsonVal)
    (st : Option JsonVal) (l : List Char) :
    scanLine parse st l =
      match payloadOf parse l with
      | some j => some j
      | none => st := by
  by_cases hb : listStarts [lbraceCh] l
  · simp [scanLine, payloadOf, hb]
  · simp [scanLine, payloadOf, hb]

theorem foldl_scanLine (parse : List Char → Option JsonVal) :
    ∀ (ls : List (List Char)) (st : Option JsonVal),
      ls.foldl (scanLine parse) st = lastOr st (ls.filterMap (payloadOf parse)) := by
  intro ls
  induction ls with
  | nil => intro st; rfl
  | cons l ls ih =>
    intro st
    rw [List.foldl_cons, ih]
    cases hp : payloadOf parse l with
    | none => simp [List.filterMap_cons, hp, scanLine_eq]
    | some j => simp [List.filterMap_cons, hp, scanLine_eq, lastOr_cons]

theorem foldl_scanChunk (parse : List Char → Option JsonVal) :
    ∀ (chunks : List (List Char)) (st : Option JsonVal),
      chunks.foldl (scanChunk parse) st
        = lastOr st (((chunks.map chunkLinesCh).flatten).filterMap (payloadOf parse)) := by
  intro chunks
  induction chunks with
  | nil => intro st; rfl
  | cons c cs ih =>
    intro st
    rw [List.foldl_cons, ih]
    simp only [List.map_cons, List.flatten_cons, List.filterMap_append, lastOr_append]
    rw [scanChunk, foldl_scanLine]

/-- Stateful scan of the whole stream equals the last successfully
parsed payload of the stream, when there is one. -/
theorem scanChunks_parsed (parse : List Char → Option JsonVal)
    (chunks : List (List Char)) :
    scanChunks parse chunks = (parsedPayloads parse chunks).getLast? := by
  rw [scanChunks, foldl_scanChunk, parsedPayloads, lastOr_none]

/-- Claim C5 (confirmed): when two or more structured terminal payloads
parse before the stream closes, the resolved summary is computed from
the last successfully parsed payload alone, so the later payload is
authoritative. -/
theorem claim_C5 (parse : List Char → Option JsonVal) (t : Nat)
    (chunks : List (List Char)) (err : String) (git : GitCliExec) (j : JsonVal)
    (_hcount : 2 ≤ (parsedPayloads parse chunks).length)
    (ht : t < MAX_EXECUTION_TIME)
    (hlast : (parsedPayloads parse chunks).getLast? = some j) :
    cliSummary? (executeClaudeCode parse (.closes t 0 chunks err) git)
      = some (jsonSummaryOf (some j) chunks.flatten) := by
  have hz : ((0 : Int) != 0) = false := by decide
  simp only [executeClaudeCode, if_pos ht, hz, Bool.false_eq_true, if_false,
    scanChunks_parsed, hlast, cliSummary?]

/-- Witness for claim C5 at a concrete stream carrying two payloads. -/
theorem claim_C5_witness :
    2 ≤ (parsedPayloads c5parse c5chunks).length ∧
    cliSummary? (executeClaudeCode c5parse (.closes 0 0 c5chunks "") (.ok ""))
      = some ("second".data) := by
  refine ⟨by decide, ?_⟩
  have h := claim_C5 c5parse 0 c5chunks "" (.ok "")
    { message := some "second".data, result := none }
    (by decide) (by decide) (by decide)
  rw [h]
  decide

/-! Helper lemma for the SDK loop: messages of a non-terminal kind are
skipped. -/

theorem sdkLoop_skip (pre rest : List SdkMsg)
    (h : ∀ x ∈ pre, x.type ≠ "result" ∧ x.type ≠ "error") :
    sdkLoop (pre ++ rest) = sdkLoop rest := by
  induction pre with
  | nil => rfl
  | cons m ms ih =>
    have hm := h m (List.mem_cons_self m ms)
    rw [List.cons_append]
    simp only [sdkLoop]
    rw [if_neg hm.1, if_neg hm.2]
    exact ih (fun x hx => h x (List.mem_cons_of_mem m hx))

/-- Claim C1 (counterexample): an SDK stream delivering an error-kind
message makes executeClaudeCodeWithSDK reject rather than resolve, so
an internal error does propagate past the Task Runner boundary as a
rejected promise, against the claim. -/
theorem claim_C1_counterexample :
    sdkResult? (executeClaudeCodeWithSDK [{ type := "error", error := some "boom" }]
        { hasChanges := false, changedFiles := [], error := none }) = none ∧
    (executeClaudeCodeWithSDK [{ type := "error", error := some "boom" }]
        { hasChanges := false, changedFiles := [], error := none }).settled
      = .error { success := false, error := "Claude Code SDK execution failed"
               , details := "Claude Code SDK error: boom" } := by
  exact ⟨by decide, rfl⟩

/-- Claim C1 (amended): in the SDK runner every internal error is
converted into a structured failure value whose success flag is false
and whose error detail is set, delivered by rejecting the promise, and
a resolution always carries success true.  In the CLI runner every
settled failure (non-zero exit, timeout) is likewise a structured
rejection and a resolution carries success true, but a spawn failure
is not converted at all: no error listener is attached to the child,
so the promise never settles and the server process crashes on the
unhandled error event, which happens exactly on the spawn-failure
fate. -/
theorem claim_C1_amended :
    (∀ (msgs : List SdkMsg) (git : ChangeSet),
      match (executeClaudeCodeWithSDK msgs git).settled with
      | .ok v => v.success = true
      | .error e => e.success = false ∧ e.error = "Claude Code SDK execution failed") ∧
    (∀ (parse : List Char → Option JsonVal) (fate : ProcFate) (git : GitCliExec),
      match (executeClaudeCode parse fate git).settled with
      | .resolved v => v.success = true
      | .rejected e => e.error = "Execution timeout exceeded"
                     ∨ e.error = "Claude Code execution failed"
      | .crashed => fate = ProcFate.spawnFails) ∧
    (∀ (parse : List Char → Option JsonVal) (git : GitCliExec),
      cliCrashed (executeClaudeCode parse ProcFate.spawnFails git) = true) := by
  refine ⟨?_, ?_, ?_⟩
  · intro msgs git
    cases hl : sdkLoop msgs with
    | threw em => simp [executeClaudeCodeWithSDK, hl]
    | finished r =>
      cases r with
      | none => simp [executeClaudeCodeWithSDK, hl]
      | some v =>
        obtain ⟨a, b, c⟩ := v
        simp [executeClaudeCodeWithSDK, hl]
  · intro parse fate git
    cases fate with
    | spawnFails => rfl
    | hangs => simp [executeClaudeCode]
    | closes t code chunks err =>
      by_cases ht : t < MAX_EXECUTION_TIME
      · cases hc : (code != 0) with
        | true => simp [executeClaudeCode, if_pos ht, hc]
        | false => simp [executeClaudeCode, if_pos ht, hc]
      · simp [executeClaudeCode, if_neg ht]
  · intro parse git
    rfl

/-- Claim C2 (code bug): on a timed-out execution the model shows the
graceful SIGTERM and the fixed rejection message, but the SIGKILL
escalation can never fire, because the callback tests the Node killed
flag, which is already true right after the SIGTERM send; the rejection
message is also capitalised differently from the claim. -/
theorem claim_C2_behavior (parse : List Char → Option JsonVal)
    (fate : ProcFate) (git : GitCliExec) (h : timedOut fate = true) :
    (executeClaudeCode parse fate git).sigterm = true ∧
    (executeClaudeCode parse fate git).sigkill = false ∧
    cliRejectError? (executeClaudeCode parse fate git)
      = some "Execution timeout exceeded" := by
  cases fate with
  | spawnFails => exact absurd h (by decide)
  | hangs => exact ⟨rfl, rfl, rfl⟩
  | closes t code chunks err =>
    have ht : ¬ t < MAX_EXECUTION_TIME := by
      simp only [timedOut, decide_eq_true_eq] at h
      omega
    refine ⟨?_, ?_, ?_⟩ <;> simp [executeClaudeCode, ht, cliRejectError?]

/-- Witness for claim C2 at the failing input: a process that ignores
SIGTERM and never exits. -/
theorem claim_C2_behavior_witness :
    (executeClaudeCode (fun _ => none) .hangs .execError).sigkill = false ∧
    cliRejectError? (executeClaudeCode (fun _ => none) .hangs .execError)
      = some "Execution timeout exceeded" := by
  have h := claim_C2_behavior (fun _ => none) .hangs .execError rfl
  exact ⟨h.2.1, h.2.2⟩

/-- Claim C3 (counterexample): a CLI execution that exits non-zero
rejects without the Change Detector ever running before the result, so
getGitDiff is not invoked for every outcome, against the claim. -/
theorem claim_C3_counterexample :
    settledOk (executeClaudeCode (fun _ => none) (.closes 100 1 [] "") .execError) = false ∧
    (executeClaudeCode (fun _ => none) (.closes 100 1 [] "") .execError).diffBeforeResult
      = false := by
  exact ⟨rfl, rfl⟩

/-- Claim C3 (amended): in both runners the Change Detector runs before
the result exactly on the success path, and the git diff result never
influences whether the outcome is a success. -/
theorem claim_C3_amended :
    (∀ (parse : List Char → Option JsonVal) (fate : ProcFate) (git : GitCliExec),
      (executeClaudeCode parse fate git).diffBeforeResult
        = settledOk (executeClaudeCode parse fate git)) ∧
    (∀ (parse : List Char → Option JsonVal) (fate : ProcFate) (git git2 : GitCliExec),
      settledOk (executeClaudeCode parse fate git)
        = settledOk (executeClaudeCode parse fate git2)) ∧
    (∀ (msgs : List SdkMsg) (git : ChangeSet),
      (executeClaudeCodeWithSDK msgs git).diffInvoked
        = sdkSettledOk (executeClaudeCodeWithSDK msgs git)) ∧
    (∀ (msgs : List SdkMsg) (git git2 : ChangeSet),
      sdkSettledOk (executeClaudeCodeWithSDK msgs git)
        = sdkSettledOk (executeClaudeCodeWithSDK msgs git2)) := by
  refine ⟨?_, ?_, ?_, ?_⟩
  · intro parse fate git
    cases fate with
    | spawnFails => rfl
    | hangs => rfl
    | closes t code chunks err =>
      by_cases ht : t < MAX_EXECUTION_TIME
      · cases hc : (code != 0) with
        | true => simp [executeClaudeCode, if_pos ht, hc, settledOk]
        | false => simp [executeClaudeCode, if_pos ht, hc, settledOk]
      · simp [executeClaudeCode, if_neg ht, settledOk]
  · intro parse fate git git2
    cases fate with
    | spawnFails => rfl
    | hangs => rfl
    | closes t code chunks err =>
      by_cases ht : t < MAX_EXECUTION_TIME
      · cases hc : (code != 0) with
        | true => simp [executeClaudeCode, if_pos ht, hc, settledOk]
        | false => simp [executeClaudeCode, if_pos ht, hc, settledOk]
      · simp [executeClaudeCode, if_neg ht, settledOk]
  · intro msgs git
    cases hl : sdkLoop msgs with
    | threw em => simp [executeClaudeCodeWithSDK, hl, sdkSettledOk]
    | finished r =>
      cases r with
      | none => simp [executeClaudeCodeWithSDK, hl, sdkSettledOk]
      | some v =>
        obtain ⟨a, b, c⟩ := v
        simp [executeClaudeCodeWithSDK, hl, sdkSettledOk]
  · intro msgs git git2
    cases hl : sdkLoop msgs with
    | threw em => simp [executeClaudeCodeWithSDK, hl, sdkSettledOk]
    | finished r =>
      cases r with
      | none => simp [executeClaudeCodeWithSDK, hl, sdkSettledOk]
      | some v =>
        obtain ⟨a, b, c⟩ := v
        simp [executeClaudeCodeWithSDK, hl, sdkSettledOk]

/-- Claim C4 (counterexample): a git close with a non-zero exit code
and empty output produces the very same ChangeSet as a clean run with
no changes, with no unavailability marker at all, so the claimed
diffUnavailable flag neither exists nor distinguishes tool failure from
no changes. -/
theorem claim_C4_counterexample :
    getGitDiff (.closed 128 []) = getGitDiff (.closed 0 []) ∧
    (getGitDiff (.closed 128 [])).error = none := by
  exact ⟨by decide, rfl⟩

/-- Claim C4 (amended): the SDK getGitDiff never rejects; a spawn error
yields no changes plus the error text Git not available, while a close
that is non-zero or has blank output yields no changes with no
unavailability marker; the CLI variant resolves the fixed string Unable
to get diff on an exec error. -/
theorem claim_C4_amended :
    getGitDiff .spawnError
      = { hasChanges := false, changedFiles := [], error := some "Git not available" } ∧
    (∀ (code : Int) (out : List Char),
      (code == 0 && !(jsTrim out).isEmpty) = false →
      getGitDiff (.closed code out)
        = { hasChanges := false, changedFiles := [], error := none }) ∧
    getGitDiffCli .execError = "Unable to get diff" := by
  refine ⟨rfl, ?_, rfl⟩
  intro code out h
  simp [getGitDiff, h]

/-- Witness for claim C4 at a concrete failing close event. -/
theorem claim_C4_amended_witness :
    getGitDiff (.closed 1 ("x".data))
      = { hasChanges := false, changedFiles := [], error := none } :=
  claim_C4_amended.2.1 1 "x".data (by decide)

/-- Claim C6 (counterexample): the CLI server on exit code zero with a
parsed payload carrying a result field but no message field resolves
with the raw first line of output as summary, not the result field of
the payload, against the claim. -/
theorem claim_C6_counterexample :
    cliSummary? (executeClaudeCode c6cexParse (.closes 1000 0 ["\x7bR".data] "") (.ok ""))
      = some ("\x7bR".data) ∧
    ("\x7bR".data : List Char) ≠ "A".data := by
  exact ⟨by decide, by decide⟩

/-- Claim C6 (amended): in the SDK server a result-kind terminal
message outside the error-during-execution special case with a
non-empty result field yields a resolution with success true and that
result text; in the CLI server an exit code of zero yields a resolution
whose summary is computed from the message field of the final parsed
payload, with heuristic fallback, and the result field of the payload
is never consulted. -/
theorem claim_C6_amended :
    (∀ (pre rest : List SdkMsg) (m : SdkMsg) (git : ChangeSet) (s : String),
      (∀ x ∈ pre, x.type ≠ "result" ∧ x.type ≠ "error") →
      m.type = "result" →
      ¬(m.subtype = some "error_during_execution" ∧ m.is_error = false) →
      m.result = some s → s ≠ "" →
      sdkResult? (executeClaudeCodeWithSDK (pre ++ m :: rest) git) = some (true, s)) ∧
    (∀ (parse : List Char → Option JsonVal) (t : Nat) (chunks : List (List Char))
        (err : String) (git : GitCliExec) (j : JsonVal),
      t < MAX_EXECUTION_TIME →
      scanChunks parse chunks = some j →
      cliSummary? (executeClaudeCode parse (.closes t 0 chunks err) git)
        = some (jsonSummaryOf (some j) chunks.flatten)) := by
  constructor
  · intro pre rest m git s hpre hr hsub hres hs
    have hskip := sdkLoop_skip pre (m :: rest) hpre
    unfold executeClaudeCodeWithSDK
    rw [hskip]
    cases hie : m.is_error with
    | false =>
      have hst : m.subtype ≠ some "error_during_execution" := fun hc => hsub ⟨hc, hie⟩
      simp [sdkLoop, hr, hst, hres, hs, sdkResult?, hie]
    | true =>
      simp [sdkLoop, hr, hres, hs, sdkResult?, hie]
  · intro parse t chunks err git j ht hscan
    have hz : ((0 : Int) != 0) = false := by decide
    simp only [executeClaudeCode, if_pos ht, hz, Bool.false_eq_true, if_false,
      hscan, cliSummary?]

/-- Witness for claim C6 amended, one concrete input per conjunct. -/
theorem claim_C6_amended_witness :
    sdkResult? (executeClaudeCodeWithSDK [{ type := "result", result := some "done" }]
        { hasChanges := false, changedFiles := [], error := none }) = some (true, "done") ∧
    cliSummary? (executeClaudeCode c6parse (.closes 5 0 ["\x7bC".data] "") .execError)
      = some ("px".data) := by
  constructor
  · have h := claim_C6_amended.1 [] [] { type := "result", result := some "done" }
      { hasChanges := false, changedFiles := [], error := none } "done"
      (fun x hx => absurd hx (List.not_mem_nil x)) rfl (by decide) rfl (by decide)
    simpa using h
  · have h := claim_C6_amended.2 c6parse 5 ["\x7bC".data] "" .execError
      { message := some "px".data, result := none } (by decide) (by decide)
    rw [h]
    decide

/-! Helper lemma for claim C7: the source loop is a first-match
search. -/

theorem findSummaryLine_eq_find? (ls : List (List Char)) :
    findSummaryLine ls = ls.find? isSummaryLine := by
  induction ls with
  | nil => rfl
  | cons l ls ih =>
    cases h : isSummaryLine l with
    | true => simp [findSummaryLine, h, List.find?_cons_of_pos ls h]
    | false =>
      have hneg : ¬ isSummaryLine l = true := by simp [h]
      simp [findSummaryLine, h, List.find?_cons_of_neg ls hneg, ih]

/-- Claim C7 (confirmed): on accumulated output, summary extraction
returns the first line on which a completion-phrasing pattern fires,
otherwise the first non-blank line, and the fixed default Task
completed when no non-blank line exists.  Each source pattern requires
its prefix word, a space, and at least one further character,
case-insensitively. -/
theorem claim_C7 (out : List Char) :
    (∀ l, (jsLines out).find? isSummaryLine = some l →
      extractSummaryFromOutput out = l) ∧
    ((jsLines out).find? isSummaryLine = none →
      ∀ l ls, jsLines out = l :: ls → extractSummaryFromOutput out = l) ∧
    (jsLines out = [] → extractSummaryFromOutput out = "Task completed".data) := by
  refine ⟨?_, ?_, ?_⟩
  · intro l h
    simp [extractSummaryFromOutput, findSummaryLine_eq_find?, h]
  · intro h l ls hll
    have h2 : (l :: ls).find? isSummaryLine = none := hll ▸ h
    simp [extractSummaryFromOutput, findSummaryLine_eq_find?, hll, h2]
  · intro h
    simp [extractSummaryFromOutput, findSummaryLine_eq_find?, h]

/-- Witness for claim C7: a matching line, and empty output. -/
theorem claim_C7_witness :
    extractSummaryFromOutput ("Created x".data) = "Created x".data ∧
    extractSummaryFromOutput [] = "Task completed".data := by
  constructor
  · exact (claim_C7 ("Created x".data)).1 ("Created x".data) (by decide)
  · exact (claim_C7 []).2.2 (by decide)

/-- Claim C8 (confirmed): any request whose authorization header
differs from the string Bearer, a space, and the configured key is
answered 401 with the Unauthorized error body, and no execution is
started, whatever the request body holds. -/
theorem claim_C8 (authHeader : Option String) (apiKey : String)
    (body : ReqBody) (exec : SdkRun)
    (h : authHeader ≠ some ("Bearer " ++ apiKey)) :
    postClaudeCode authHeader apiKey body exec
      = { status := 401, errorBody := some "Unauthorized", executionStarted := false } := by
  have ha : authenticate authHeader apiKey = false := by
    cases authHeader with
    | none => rfl
    | some s =>
      simp only [authenticate, beq_eq_false_iff_ne, ne_eq]
      intro hc
      exact h (by rw [hc])
  simp [postClaudeCode, ha]

/-- Witness for claim C8 at a concrete mismatching header. -/
theorem claim_C8_witness :
    postClaudeCode (some "Bearer wrong") "k"
      { task := some "t", codebase_path := some "p" }
      (executeClaudeCodeWithSDK [] { hasChanges := false, changedFiles := [], error := none })
      = { status := 401, errorBody := some "Unauthorized", executionStarted := false } :=
  claim_C8 _ _ _ _ (by decide)

/-- Claim C9 (confirmed): an authenticated request whose body is
missing the task field or the codebase path field is answered 400 with
the missing-parameters error body, and the runner is never invoked. -/
theorem claim_C9 (authHeader : Option String) (apiKey : String)
    (body : ReqBody) (exec : SdkRun)
    (hauth : authenticate authHeader apiKey = true)
    (hmiss : body.task = none ∨ body.codebase_path = none) :
    postClaudeCode authHeader apiKey body exec
      = { status := 400
        , errorBody := some "Missing required parameters: task and codebase_path"
        , executionStarted := false } := by
  have hcond : (!jsTruthyStr body.task || !jsTruthyStr body.codebase_path) = true := by
    rcases hmiss with h | h <;> simp [jsTruthyStr, h]
  simp [postClaudeCode, hauth, hcond]

/-- Witness for claim C9 at a concrete authenticated request with no
task field. -/
theorem claim_C9_witness :
    postClaudeCode (some "Bearer k") "k"
      { task := none, codebase_path := some "p" }
      (executeClaudeCodeWithSDK [] { hasChanges := false, changedFiles := [], error := none })
      = { status := 400
        , errorBody := some "Missing required parameters: task and codebase_path"
        , executionStarted := false } :=
  claim_C9 _ _ _ _ (by decide) (Or.inl rfl)
